import Mathlib

/-!
Shallow embedding of the WhisperX long-form transcription subsystem:
the chunk builders of whisperx/video_segmenter.py and the orchestration,
subtitle-rendering and progress-reporting functions of whisperx/api_server.py.
Times (Python floats) are modelled as rationals; Python dictionaries become
structures; a recognition call that may raise becomes a function into Except.
-/

/-- Audio chunk record (video_segmenter.py, class AudioSegment).  The source
field named end is called stop here because end is a Lean keyword; the
derived duration field of the source is the function AudioSegment.duration. -/
structure AudioSegment where
  start : ℚ
  stop : ℚ
  segment_id : ℕ
deriving DecidableEq, Repr

/-- Source: self.duration = end - start. -/
def AudioSegment.duration (s : AudioSegment) : ℚ := s.stop - s.start

/-- Loop of create_vad_chunks (video_segmenter.py lines 194-225), state-passing
form.  State: the list of speech intervals still to process, the running
window (current_start, current_end), the next chunk id, and the chunks
accumulated so far.  The source appends a closed chunk with its end extended
by overlap (not clamped) and its start shrunk by overlap clamped to 0, and
after the loop emits the final window without the end extension, guarded by
current_start < current_end. -/
def cutMergeLoop (target overlap : ℚ) :
    List (ℚ × ℚ) → ℚ → ℚ → ℕ → List AudioSegment → List AudioSegment
  | [], cs, ce, cid, acc =>
      if cs < ce then acc ++ [⟨max 0 (cs - overlap), ce, cid⟩] else acc
  | (ss, se) :: rest, cs, ce, cid, acc =>
      if se - cs ≤ target then
        cutMergeLoop target overlap rest cs se cid acc
      else
        cutMergeLoop target overlap rest ss se (cid + 1)
          (acc ++ [⟨max 0 (cs - overlap), ce + overlap, cid⟩])

/-- Position of the cursor of the while loop of create_time_based_chunks
(video_segmenter.py lines 265-277) before iteration k: the loop starts at 0
and advances by chunk_duration - overlap each iteration. -/
def timeLoopPos (chunk_duration overlap : ℚ) (k : ℕ) : ℚ :=
  k * (chunk_duration - overlap)

/-- Fuel-indexed unfolding of the while loop of create_time_based_chunks
(video_segmenter.py lines 267-277): while current_pos < duration, emit the
chunk [current_pos, min (current_pos + chunk_duration) duration] and advance
by chunk_duration - overlap. -/
def timeChunksAux (chunk_duration overlap duration : ℚ) :
    ℕ → ℚ → ℕ → List AudioSegment
  | 0, _, _ => []
  | fuel + 1, pos, cid =>
      if pos < duration then
        ⟨pos, min (pos + chunk_duration) duration, cid⟩ ::
          timeChunksAux chunk_duration overlap duration fuel
            (pos + (chunk_duration - overlap)) (cid + 1)
      else []

/-- Fuel sufficient for the loop of create_time_based_chunks to run to
completion when chunk_duration > overlap.  When chunk_duration <= overlap the
source loop does not terminate for positive durations (settled separately);
the model then returns the empty list as a placeholder. -/
def timeFuel (chunk_duration overlap duration : ℚ) : ℕ :=
  if chunk_duration - overlap ≤ 0 then 0
  else (⌈duration / (chunk_duration - overlap)⌉).toNat + 1

/-- Fixed-window chunk builder (video_segmenter.py, create_time_based_chunks,
lines 230-282), with the audio duration passed explicitly in place of the
ffprobe lookup. -/
def create_time_based_chunks (chunk_duration overlap duration : ℚ) :
    List AudioSegment :=
  timeChunksAux chunk_duration overlap duration
    (timeFuel chunk_duration overlap duration) 0 0

/-- Cut-and-Merge chunk builder (video_segmenter.py, create_vad_chunks,
lines 155-228), with the detected speech intervals passed explicitly in place
of the VAD call.  An empty detection falls back to the fixed-window builder;
note that the nonempty branch never consults the audio duration. -/
def create_vad_chunks (speech : List (ℚ × ℚ)) (duration target overlap : ℚ) :
    List AudioSegment :=
  match speech with
  | [] => create_time_based_chunks target overlap duration
  | (s0, e0) :: rest => cutMergeLoop target overlap rest s0 e0 0 []

/-- Inner while loop of create_silence_based_chunks (video_segmenter.py lines
325-332): split the span from pos up to bound into pieces of at most maxd. -/
def silenceSplitLoop (maxd bound : ℚ) : ℕ → ℚ → ℕ → List AudioSegment
  | 0, _, _ => []
  | fuel + 1, pos, cid =>
      if pos < bound then
        ⟨pos, min (pos + maxd) bound, cid⟩ ::
          silenceSplitLoop maxd bound fuel (min (pos + maxd) bound) (cid + 1)
      else []

/-- Fuel sufficient for silenceSplitLoop when maxd > 0. -/
def silenceSplitFuel (maxd pos bound : ℚ) : ℕ :=
  if maxd ≤ 0 then 0 else (⌈(bound - pos) / maxd⌉).toNat + 1

/-- Outer for loop of create_silence_based_chunks (video_segmenter.py lines
320-342): walk the detected silences, emitting the spans between them,
splitting any span longer than maxd; returns the accumulated chunks together
with the final prev_end and the next chunk id. -/
def silenceOuter (maxd : ℚ) :
    List (ℚ × ℚ) → ℚ → ℕ → List AudioSegment × ℚ × ℕ
  | [], prev, cid => ([], prev, cid)
  | (ss, se) :: rest, prev, cid =>
      if prev < ss then
        if maxd < ss - prev then
          (fun l =>
            (fun r => (l ++ r.1, r.2))
              (silenceOuter maxd rest se (cid + l.length)))
            (silenceSplitLoop maxd ss (silenceSplitFuel maxd prev ss) prev cid)
        else
          (fun r => (⟨prev, ss, cid⟩ :: r.1, r.2))
            (silenceOuter maxd rest se (cid + 1))
      else silenceOuter maxd rest se cid

/-- Silence-gap chunk builder (video_segmenter.py, create_silence_based_chunks,
lines 284-353), with the detected silences and the audio duration passed
explicitly.  The chunks lie between the silences; a final chunk up to the
audio duration is appended when the last silence ends before it.  An empty
silence list falls back to the fixed-window builder with the configured
chunk_duration and overlap. -/
def create_silence_based_chunks (silences : List (ℚ × ℚ))
    (duration maxd chunk_duration overlap : ℚ) : List AudioSegment :=
  match silences with
  | [] => create_time_based_chunks chunk_duration overlap duration
  | s :: rest =>
      (fun r =>
        if r.2.1 < duration then r.1 ++ [⟨r.2.1, duration, r.2.2⟩] else r.1)
        (silenceOuter maxd (s :: rest) 0 0)

/-- Strategy auto-selection (video_segmenter.py, get_optimal_strategy, lines
355-375). -/
def get_optimal_strategy (audio_duration : ℚ) : String :=
  if audio_duration < 30 then "none"
  else if audio_duration < 600 then "vad"
  else "vad"

/-- Environment of a VideoSegmenter call: the configured durations together
with the results the external collaborators would return (detected speech
intervals, detected silences, probed audio duration). -/
structure SegmenterEnv where
  chunk_duration : ℚ
  overlap_duration : ℚ
  speech : List (ℚ × ℚ)
  silences : List (ℚ × ℚ)
  duration : ℚ

/-- Strategy dispatch (video_segmenter.py, segment_audio, lines 377-416):
auto is resolved through get_optimal_strategy, the known strategy names
dispatch to their builders, and any other string falls through to the
VAD-based builder after a logged warning. -/
def segment_audio (env : SegmenterEnv) (strategy : String) : List AudioSegment :=
  let strat := if strategy = "auto" then get_optimal_strategy env.duration else strategy
  if strat = "none" then [⟨0, env.duration, 0⟩]
  else if strat = "vad" then
    create_vad_chunks env.speech env.duration env.chunk_duration env.overlap_duration
  else if strat = "time" then
    create_time_based_chunks env.chunk_duration env.overlap_duration env.duration
  else if strat = "silence" then
    create_silence_based_chunks env.silences env.duration (env.chunk_duration * 2)
      env.chunk_duration env.overlap_duration
  else
    create_vad_chunks env.speech env.duration env.chunk_duration env.overlap_duration

/-- Python str.strip on the character list: drop whitespace from both ends. -/
def stripChars (l : List Char) : List Char :=
  ((l.dropWhile Char.isWhitespace).reverse.dropWhile Char.isWhitespace).reverse

/-- Python str.strip: whitespace removed from both ends of the string. -/
def pyStrip (s : String) : String := ⟨stripChars s.data⟩

/-- Zero-padding to two digits, the meaning of the Python format spec 02d for
a nonnegative value. -/
def pad2 (n : ℕ) : String := if n < 10 then "0" ++ toString n else toString n

/-- Zero-padding to three digits, the meaning of the Python format spec 03d
for a nonnegative value. -/
def pad3 (n : ℕ) : String :=
  if n < 10 then "00" ++ toString n
  else if n < 100 then "0" ++ toString n
  else toString n

/-- Python float modulo: a % b = a - b * floor (a / b). -/
def qmod (a b : ℚ) : ℚ := a - b * ⌊a / b⌋

/-- Timestamp renderer (api_server.py, format_timestamp_srt, lines 241-255):
hours, minutes, seconds and milliseconds extracted with // and %, then
rendered zero-padded as HH:MM:SS,mmm.  Faithful for nonnegative times (the
Python int() truncation agrees with the floor for nonnegative arguments). -/
def format_timestamp_srt (seconds : ℚ) : String :=
  pad2 (⌊seconds / 3600⌋).toNat ++ ":" ++
    pad2 (⌊qmod seconds 3600 / 60⌋).toNat ++ ":" ++
    pad2 (⌊qmod seconds 60⌋).toNat ++ "," ++
    pad3 (⌊qmod seconds 1 * 1000⌋).toNat

/-- Python "\n".join: interleave a newline between the lines, with nothing
appended after the last line. -/
def joinLines : List String → String
  | [] => ""
  | [l] => l
  | l :: l' :: rest => l ++ "\n" ++ joinLines (l' :: rest)

/-- One word entry of a transcript segment as the renderers consume it: the
word key (default empty string) and the optional start and end keys. -/
structure WordEntry where
  word : String
  start : Option ℚ
  stop : Option ℚ
deriving DecidableEq, Repr

/-- One transcript segment as the renderers consume it: the text key (default
empty string), the optional start and end keys, and the words array. -/
structure SegEntry where
  text : String
  start : Option ℚ
  stop : Option ℚ
  words : List WordEntry
deriving DecidableEq, Repr

/-- Inner loop of generate_srt_from_segments (api_server.py lines 277-297)
over the words of one segment: skip entries whose stripped word is empty or
whose start or end is missing, otherwise append the four cue lines (counter,
timestamp line, text, blank) and advance the counter.  Returns the lines and
the updated counter. -/
def srtWordLines : ℕ → List WordEntry → List String × ℕ
  | counter, [] => ([], counter)
  | counter, w :: rest =>
      match w.start, w.stop with
      | some s, some e =>
          if pyStrip w.word = "" then srtWordLines counter rest
          else
            (fun r =>
              ([toString counter,
                format_timestamp_srt s ++ " --> " ++ format_timestamp_srt e,
                pyStrip w.word, ""] ++ r.1, r.2))
              (srtWordLines (counter + 1) rest)
      | _, _ => srtWordLines counter rest

/-- Outer loop of generate_srt_from_segments (api_server.py lines 274-297)
over the segments, threading the cue counter. -/
def srtSegWordLines : ℕ → List SegEntry → List String × ℕ
  | counter, [] => ([], counter)
  | counter, seg :: rest =>
      (fun r =>
        (fun r' => (r.1 ++ r'.1, r'.2)) (srtSegWordLines r.2 rest))
        (srtWordLines counter seg.words)

/-- Word-level subtitle renderer (api_server.py, generate_srt_from_segments,
lines 258-299): build the cue lines, then join them with newlines. -/
def generate_srt_from_segments (segments : List SegEntry) : String :=
  joinLines (srtSegWordLines 1 segments).1

/-- Loop of generate_segment_srt (api_server.py lines 317-332) over the
segments: skip entries whose stripped text is empty or whose start or end is
missing, otherwise append the four cue lines and advance the counter. -/
def srtSegLines : ℕ → List SegEntry → List String × ℕ
  | counter, [] => ([], counter)
  | counter, seg :: rest =>
      match seg.start, seg.stop with
      | some s, some e =>
          if pyStrip seg.text = "" then srtSegLines counter rest
          else
            (fun r =>
              ([toString counter,
                format_timestamp_srt s ++ " --> " ++ format_timestamp_srt e,
                pyStrip seg.text, ""] ++ r.1, r.2))
              (srtSegLines (counter + 1) rest)
      | _, _ => srtSegLines counter rest

/-- Segment-level subtitle renderer (api_server.py, generate_segment_srt,
lines 302-334). -/
def generate_segment_srt (segments : List SegEntry) : String :=
  joinLines (srtSegLines 1 segments).1

/-- One raw transcript segment as produced by the recognition engine for one
chunk (and, after offsetting, as accumulated by transcribe_large). -/
structure RawSeg where
  start : ℚ
  stop : ℚ
  text : String
deriving DecidableEq, Repr

/-- Result dictionary of transcribe_audio_segment (api_server.py lines
655-671): chunk id, chunk start and end, the offset transcript segments, the
language key (present on success) and the error key (present on failure). -/
structure SegmentResult where
  segment_id : ℕ
  start : ℚ
  stop : ℚ
  segments : List RawSeg
  language : Option String
  error : Option String
deriving DecidableEq, Repr

/-- The recognition engine as transcribe_audio_segment uses it: from a chunk
and a pinned language to either a raised exception (error message) or the
chunk-local transcript segments plus the detected language. -/
def RecEngine : Type :=
  AudioSegment → Option String → Except String (List RawSeg × Option String)

/-- Per-chunk recognition wrapper (api_server.py, transcribe_audio_segment,
lines 617-671).  On success the chunk-local timestamps are offset by the
chunk start and the result carries the reported language (falling back to
the language argument); the whole body is wrapped in try/except, and on any
exception the result carries the chunk id, start and end with an empty
segments list and the error message, so no exception propagates. -/
def transcribe_audio_segment (engine : RecEngine) (language : Option String)
    (seg : AudioSegment) : SegmentResult :=
  match engine seg language with
  | .ok (segs, lang) =>
      { segment_id := seg.segment_id, start := seg.start, stop := seg.stop,
        segments := segs.map fun r =>
          { start := r.start + seg.start, stop := r.stop + seg.start, text := r.text },
        language := (match lang with | some l => some l | none => language),
        error := none }
  | .error e =>
      { segment_id := seg.segment_id, start := seg.start, stop := seg.stop,
        segments := [], language := none, error := some e }

/-- Accumulation loop of transcribe_large (api_server.py lines 801-828):
all_segments.extend(result["segments"]) over the given chunks with a fixed
language. -/
def transcribeFold (engine : RecEngine) (language : Option String)
    (chunks : List AudioSegment) (init : List RawSeg) : List RawSeg :=
  chunks.foldl (fun acc seg => acc ++ (transcribe_audio_segment engine language seg).segments) init

/-- The all_segments list of transcribe_large just before alignment
(api_server.py lines 785-828).  When no language is pinned and there is at
least one chunk, the first chunk is transcribed during language detection
(lines 788-796, with no progress callback), the detected language defaulting
to en, and the loop then starts at index 1; otherwise the loop covers every
chunk with the pinned language. -/
def transcribe_large_all_segments (engine : RecEngine) (language : Option String)
    (chunks : List AudioSegment) : List RawSeg :=
  match language, chunks with
  | none, c0 :: rest =>
      (fun first =>
        transcribeFold engine (some (first.language.getD "en")) rest first.segments)
        (transcribe_audio_segment engine none c0)
  | _, _ => transcribeFold engine language chunks []

/-- The start index of the transcription loop of transcribe_large
(api_server.py lines 788-798): 1 when language detection consumed the first
chunk, 0 otherwise. -/
def loopStartIdx (language : Option String) (num_chunks : ℕ) : ℕ :=
  if language = none ∧ 0 < num_chunks then 1 else 0

/-- Progress value sent before transcribing chunk i of n (api_server.py line
808): 20 + int of i / n * 60, with the int() truncation modelled as the
floor (the operand is nonnegative). -/
def segment_progress (n i : ℕ) : ℤ := 20 + ⌊(i : ℚ) / n * 60⌋

/-- The sequence of progress values sent during the transcription phase of
transcribe_large (api_server.py lines 801-822): one callback is issued at
the top of each loop iteration, i.e. for each chunk index from the loop
start index up to n - 1, before that chunk is transcribed. -/
def transcription_progress_values (n k : ℕ) : List ℤ :=
  ((List.range n).drop k).map (segment_progress n)

/-- Claim-side coverage predicate (spec section 3 invariant): every point of
the interval from 0 to duration lies within tol of some chunk, i.e. the
chunk union leaves no uncovered gap wider than the tolerance. -/
def coversWithin (chunks : List AudioSegment) (duration tol : ℚ) : Prop :=
  ∀ x : ℚ, 0 ≤ x → x ≤ duration →
    ∃ c ∈ chunks, c.start - tol ≤ x ∧ x ≤ c.stop + tol

/-- Claim-side near-duplicate relation (spec section 4.5): same text and
intervals overlapping by more than the epsilon. -/
def nearDup (eps : ℚ) (a b : RawSeg) : Prop :=
  a.text = b.text ∧ eps < min a.stop b.stop - max a.start b.start

/-- Claim-side reassembly invariant (spec section 3): the final transcript
segment list is monotonically non-decreasing in start and contains no two
near-duplicate entries. -/
def reassemblyInvariant (eps : ℚ) (l : List RawSeg) : Prop :=
  l.Chain' (fun a b => a.start ≤ b.start) ∧ l.Pairwise (fun a b => ¬ nearDup eps a b)

/-- Well-formedness of a detected speech interval list, Boolean so concrete
instances evaluate: every interval has 0 <= start <= end <= duration, and
consecutive intervals have non-decreasing starts. -/
def speechWF (duration : ℚ) : List (ℚ × ℚ) → Bool
  | [] => true
  | [p] => decide (0 ≤ p.1) && decide (p.1 ≤ p.2) && decide (p.2 ≤ duration)
  | p :: q :: rest =>
      decide (0 ≤ p.1) && decide (p.1 ≤ p.2) && decide (p.2 ≤ duration) &&
        decide (p.1 ≤ q.1) && speechWF duration (q :: rest)

/-- Claim-side cue block (spec section 6, subtitle text format): index
newline timestamps newline text newline newline. -/
def cueBlock (idx : ℕ) (s e : ℚ) (text : String) : String :=
  toString idx ++ "\n" ++ format_timestamp_srt s ++ " --> " ++
    format_timestamp_srt e ++ "\n" ++ text ++ "\n\n"

/-- Claim-side rendered subtitle text: the plain concatenation of one cue
block per rendered entry, indices counting up from the given one. -/
def cueConcat : ℕ → List (ℚ × ℚ × String) → String
  | _, [] => ""
  | idx, (s, e, t) :: rest => cueBlock idx s e t ++ cueConcat (idx + 1) rest

/-- The word entries the word-level renderer keeps: per segment in order, per
word in order, those with a nonempty stripped word and both timestamps. -/
def wordEntriesOf : List WordEntry → List (ℚ × ℚ × String)
  | [] => []
  | w :: rest =>
      match w.start, w.stop with
      | some s, some e =>
          if pyStrip w.word = "" then wordEntriesOf rest
          else (s, e, pyStrip w.word) :: wordEntriesOf rest
      | _, _ => wordEntriesOf rest

/-- All word entries the word-level renderer keeps, across the segments. -/
def allWordEntries (segments : List SegEntry) : List (ℚ × ℚ × String) :=
  (segments.map fun seg => wordEntriesOf seg.words).flatten

/-- The segment entries the segment-level renderer keeps. -/
def segEntriesOf : List SegEntry → List (ℚ × ℚ × String)
  | [] => []
  | seg :: rest =>
      match seg.start, seg.stop with
      | some s, some e =>
          if pyStrip seg.text = "" then segEntriesOf rest
          else (s, e, pyStrip seg.text) :: segEntriesOf rest
      | _, _ => segEntriesOf rest

/-- Adjacency property of a chunk list at index i, stated on optional lookups
so that it is binder-free at concrete inputs: when chunks i and i+1 both
exist, the property of the pair holds. -/
def adjPairProp (chunks : List AudioSegment)
    (P : AudioSegment → AudioSegment → Prop) (i : ℕ) : Prop :=
  match chunks[i]?, chunks[i + 1]? with
  | some a, some b => P a b
  | _, _ => True

/-- C3 (amended): for a 45-second file whose detected speech intervals are
exactly the single interval from 2 to 40, with target chunk duration 30 and
overlap 10, the Cut-and-Merge builder returns exactly one chunk, from
max 0 (2 - 10) = 0 to 40: a single speech interval is never split even
though it is longer than the target, the final chunk gets no end extension,
and the 45-second duration is not consulted at all. -/
theorem C3_cut_merge_45s_single_chunk :
    create_vad_chunks [(2, 40)] 45 30 10 = [⟨0, 40, 0⟩] := by
  norm_num [create_vad_chunks, cutMergeLoop]

/-- C3 counterexample: on that input the builder does not return 2 chunks
(it returns 1), refuting the claimed pair of chunks near 0-30 and 20-45. -/
theorem C3_counterexample :
    (create_vad_chunks [(2, 40)] 45 30 10).length ≠ 2 := by
  norm_num [create_vad_chunks, cutMergeLoop]

/-- C10: for every strategy string outside the vocabulary auto, none, vad,
time, silence, segment_audio returns exactly what the explicit vad strategy
returns (the unknown-strategy branch calls create_vad_chunks the same way),
with no error raised (the function is total). -/
theorem C10_unknown_strategy_is_vad (env : SegmenterEnv) (s : String)
    (h1 : s ≠ "auto") (h2 : s ≠ "none") (h3 : s ≠ "vad") (h4 : s ≠ "time")
    (h5 : s ≠ "silence") :
    segment_audio env s = segment_audio env "vad" := by
  simp [segment_audio, h1, h2, h3, h4, h5]

theorem C10_witness :
    segment_audio ⟨30, 10, [(0, 5)], [], 45⟩ "bogus" =
      segment_audio ⟨30, 10, [(0, 5)], [], 45⟩ "vad" :=
  C10_unknown_strategy_is_vad ⟨30, 10, [(0, 5)], [], 45⟩ "bogus"
    (by decide) (by decide) (by decide) (by decide) (by decide)

/-- C9: the fixed-window loop cursor advances by chunk_duration - overlap
each iteration; when overlap < chunk_duration the guard pos < duration fails
after finitely many iterations for every duration at least 0, and when
chunk_duration <= overlap and 0 < duration the guard holds at every
iteration, so the while loop of create_time_based_chunks never terminates. -/
theorem C9_time_loop_termination (c o D : ℚ) :
    (∀ k : ℕ, timeLoopPos c o (k + 1) = timeLoopPos c o k + (c - o)) ∧
    (o < c → 0 ≤ D → ∃ k : ℕ, D ≤ timeLoopPos c o k) ∧
    (c ≤ o → 0 < D → ∀ k : ℕ, timeLoopPos c o k < D) := by
  refine ⟨?_, ?_, ?_⟩
  · intro k
    simp only [timeLoopPos]
    push_cast
    ring
  · intro hco hD
    refine ⟨(⌈D / (c - o)⌉).toNat, ?_⟩
    have hs : 0 < c - o := by linarith
    have hq : 0 ≤ D / (c - o) := div_nonneg hD (le_of_lt hs)
    have hceil : (0 : ℤ) ≤ ⌈D / (c - o)⌉ := Int.ceil_nonneg hq
    have h1 : D / (c - o) ≤ ((⌈D / (c - o)⌉).toNat : ℚ) := by
      have h2 := Int.le_ceil (D / (c - o))
      have h3 : ((⌈D / (c - o)⌉ : ℤ) : ℚ) = ((⌈D / (c - o)⌉).toNat : ℚ) := by
        exact_mod_cast (Int.toNat_of_nonneg hceil).symm
      linarith [h2, h3.le, h3.ge]
    have h4 : D / (c - o) * (c - o) ≤ ((⌈D / (c - o)⌉).toNat : ℚ) * (c - o) :=
      mul_le_mul_of_nonneg_right h1 (le_of_lt hs)
    have h5 : D / (c - o) * (c - o) = D := div_mul_cancel₀ D (ne_of_gt hs)
    simp only [timeLoopPos]
    linarith
  · intro hco hD k
    have h1 : (k : ℚ) * (c - o) ≤ 0 :=
      mul_nonpos_of_nonneg_of_nonpos (by positivity) (by linarith)
    simp only [timeLoopPos]
    linarith

theorem C9_witness :
    (∀ k : ℕ, timeLoopPos 30 10 (k + 1) = timeLoopPos 30 10 k + (30 - 10)) ∧
    (∃ k : ℕ, (100 : ℚ) ≤ timeLoopPos 30 10 k) :=
  ⟨(C9_time_loop_termination 30 10 100).1,
    (C9_time_loop_termination 30 10 100).2.1 (by decide) (by decide)⟩

/-- Chunk property at an optional index, binder-free at concrete inputs. -/
def chunkAtProp (chunks : List AudioSegment) (P : AudioSegment → Prop) (i : ℕ) : Prop :=
  match chunks[i]? with
  | some ch => P ch
  | none => True

theorem chunkAtProp_of_forall_mem {chunks : List AudioSegment}
    {P : AudioSegment → Prop} (h : ∀ ch ∈ chunks, P ch) (i : ℕ) :
    chunkAtProp chunks P i := by
  unfold chunkAtProp
  cases hx : chunks[i]? with
  | none => trivial
  | some ch => exact h ch (List.getElem?_mem hx)

theorem speechWF_cons (D : ℚ) (p : ℚ × ℚ) (rest : List (ℚ × ℚ)) :
    speechWF D (p :: rest) = true ↔
      0 ≤ p.1 ∧ p.1 ≤ p.2 ∧ p.2 ≤ D ∧
        (∀ q ∈ rest.head?, p.1 ≤ q.1) ∧ speechWF D rest = true := by
  cases rest with
  | nil => simp [speechWF, and_assoc]
  | cons q t =>
    simp only [speechWF, Bool.and_eq_true, decide_eq_true_eq, List.head?_cons,
      Option.mem_def, Option.some.injEq]
    constructor
    · rintro ⟨⟨⟨⟨h1, h2⟩, h3⟩, h4⟩, h5⟩
      exact ⟨h1, h2, h3, fun r hr => hr ▸ h4, h5⟩
    · rintro ⟨h1, h2, h3, h4, h5⟩
      exact ⟨⟨⟨⟨h1, h2⟩, h3⟩, h4 q rfl⟩, h5⟩

/-- Invariant of the Cut-and-Merge loop: with a well-formed remaining speech
list, a running window inside the file that starts no later than the next
interval, and accumulated chunks already in bounds, every produced chunk ch
satisfies 0 <= ch.start <= ch.stop <= D + overlap. -/
theorem cutMergeLoop_mem_bounds (D t o : ℚ) (ho : 0 ≤ o) :
    ∀ (segs : List (ℚ × ℚ)) (cs ce : ℚ) (cid : ℕ) (acc : List AudioSegment),
      speechWF D segs = true → 0 ≤ cs → cs ≤ ce → ce ≤ D →
      (∀ q ∈ segs.head?, cs ≤ q.1) →
      (∀ ch ∈ acc, 0 ≤ ch.start ∧ ch.start ≤ ch.stop ∧ ch.stop ≤ D + o) →
      ∀ ch ∈ cutMergeLoop t o segs cs ce cid acc,
        0 ≤ ch.start ∧ ch.start ≤ ch.stop ∧ ch.stop ≤ D + o := by
  intro segs
  induction segs with
  | nil =>
    intro cs ce cid acc _ h0 hcse hceD _ hacc ch hch
    simp only [cutMergeLoop] at hch
    by_cases hlt : cs < ce
    · rw [if_pos hlt] at hch
      rcases List.mem_append.mp hch with h | h
      · exact hacc ch h
      · rcases List.mem_singleton.mp h with rfl
        refine ⟨le_max_left 0 _, ?_, ?_⟩
        · show max 0 (cs - o) ≤ ce
          exact max_le (by linarith) (by linarith)
        · show ce ≤ D + o
          linarith
    · rw [if_neg hlt] at hch
      exact hacc ch hch
  | cons p rest ih =>
    intro cs ce cid acc hwf h0 hcse hceD hnext hacc ch hch
    obtain ⟨hp0, hpse, hpD, hchain, hwfrest⟩ := (speechWF_cons D p rest).mp hwf
    have hcsp : cs ≤ p.1 := hnext p (by simp)
    rcases p with ⟨ss, se⟩
    simp only [cutMergeLoop] at hch
    by_cases hm : se - cs ≤ t
    · rw [if_pos hm] at hch
      exact ih cs se cid acc hwfrest h0 (by linarith [hpse]) hpD
        (fun q hq => le_trans hcsp (hchain q hq)) hacc ch hch
    · rw [if_neg hm] at hch
      refine ih ss se (cid + 1) _ hwfrest hp0 hpse hpD hchain ?_ ch hch
      intro ch' hch'
      rcases List.mem_append.mp hch' with h | h
      · exact hacc ch' h
      · rcases List.mem_singleton.mp h with rfl
        refine ⟨le_max_left 0 _, ?_, ?_⟩
        · show max 0 (cs - o) ≤ ce + o
          exact max_le (by linarith) (by linarith)
        · show ce + o ≤ D + o
          linarith

/-- C5 (amended): for every nonempty well-formed list of detected speech
intervals inside a file of duration D and every overlap at least 0, every
chunk returned by the Cut-and-Merge builder satisfies
0 <= start <= stop <= D + overlap: the start is shrunk by the overlap
clamped to 0, but the end extension is NOT clamped to the file end, so a
chunk end may exceed D by up to the overlap margin. -/
theorem C5_cut_merge_chunk_bounds (speech : List (ℚ × ℚ)) (D t o : ℚ)
    (hne : speech ≠ []) (ho : 0 ≤ o) (hwf : speechWF D speech = true) :
    ∀ i : ℕ, chunkAtProp (create_vad_chunks speech D t o)
      (fun ch => 0 ≤ ch.start ∧ ch.start ≤ ch.stop ∧ ch.stop ≤ D + o) i := by
  intro i
  refine chunkAtProp_of_forall_mem ?_ i
  cases speech with
  | nil => exact absurd rfl hne
  | cons p rest =>
    obtain ⟨hp0, hpse, hpD, hchain, hwfrest⟩ := (speechWF_cons D p rest).mp hwf
    rcases p with ⟨s0, e0⟩
    intro ch hch
    exact cutMergeLoop_mem_bounds D t o ho rest s0 e0 0 []
      hwfrest hp0 hpse hpD hchain (by simp) ch hch

theorem C5_witness :
    chunkAtProp (create_vad_chunks [(0, 5)] 40 30 10)
      (fun ch => 0 ≤ ch.start ∧ ch.start ≤ ch.stop ∧ ch.stop ≤ 40 + 10) 0 :=
  C5_cut_merge_chunk_bounds [(0, 5)] 40 30 10 (by decide) (by decide) (by decide) 0

/-- C5 counterexample: the speech list with intervals 0-28 and 30-36 is
well-formed inside a 36-second file, yet with target 30 and overlap 10 the
first returned chunk ends at 28 + 10 = 38 > 36: the end extension of a
closed chunk is not clamped to the file end, refuting stop <= D. -/
theorem C5_counterexample :
    speechWF 36 [(0, 28), (30, 36)] = true ∧
    create_vad_chunks [(0, 28), (30, 36)] 36 30 10 = [⟨0, 38, 0⟩, ⟨20, 36, 1⟩] ∧
    ¬ (38 : ℚ) ≤ 36 := by
  refine ⟨by decide, ?_, by norm_num⟩
  norm_num [create_vad_chunks, cutMergeLoop]

/-- Element formula of the fixed-window loop: chunk i of the unfolded loop
starts at pos + i * (chunk_duration - overlap), stops at the minimum of its
start + chunk_duration and the file duration, and has id cid + i. -/
theorem timeChunksAux_getElem (c o D : ℚ) :
    ∀ (fuel : ℕ) (pos : ℚ) (cid : ℕ) (i : ℕ) (ch : AudioSegment),
      (timeChunksAux c o D fuel pos cid)[i]? = some ch →
      ch.start = pos + i * (c - o) ∧ ch.stop = min (ch.start + c) D ∧
        ch.segment_id = cid + i := by
  intro fuel
  induction fuel with
  | zero =>
    intro pos cid i ch h
    simp [timeChunksAux] at h
  | succ fuel ih =>
    intro pos cid i ch h
    simp only [timeChunksAux] at h
    by_cases hp : pos < D
    · rw [if_pos hp] at h
      cases i with
      | zero =>
        simp only [List.getElem?_cons_zero, Option.some.injEq] at h
        subst h
        refine ⟨by push_cast; ring, rfl, by simp⟩
      | succ i =>
        simp only [List.getElem?_cons_succ] at h
        obtain ⟨h1, h2, h3⟩ := ih (pos + (c - o)) (cid + 1) i ch h
        refine ⟨by rw [h1]; push_cast; ring, h2, by omega⟩
    · rw [if_neg hp] at h
      simp at h

/-- C4 (amended): the Fixed-Window builder tiles the file in windows
stepping by chunk_duration - overlap: chunk i starts at
i * (chunk_duration - overlap), every chunk stops at the minimum of its
start + chunk_duration and the duration (the last window clamped to the
duration), and two adjacent chunks overlap by exactly the overlap margin
whenever the earlier chunk is not clamped by the file end.  The analogous
exact-overlap claim for Cut-&-Merge is refuted by C4_counterexample. -/
theorem C4_fixed_window_tiling (c o D : ℚ) :
    (∀ i : ℕ, chunkAtProp (create_time_based_chunks c o D)
      (fun ch => ch.start = timeLoopPos c o i ∧
        ch.stop = min (ch.start + c) D ∧ ch.segment_id = i) i) ∧
    (∀ i : ℕ, adjPairProp (create_time_based_chunks c o D)
      (fun a b => b.start = a.start + (c - o) ∧
        (a.start + c ≤ D → a.stop - b.start = o)) i) := by
  constructor
  · intro i
    unfold chunkAtProp
    cases hx : (create_time_based_chunks c o D)[i]? with
    | none => trivial
    | some ch =>
      obtain ⟨h1, h2, h3⟩ := timeChunksAux_getElem c o D _ 0 0 i ch hx
      refine ⟨by rw [h1]; unfold timeLoopPos; ring, h2, by omega⟩
  · intro i
    unfold adjPairProp
    cases hx : (create_time_based_chunks c o D)[i]? with
    | none => trivial
    | some a =>
      cases hy : (create_time_based_chunks c o D)[i + 1]? with
      | none => trivial
      | some b =>
        obtain ⟨ha1, ha2, _⟩ := timeChunksAux_getElem c o D _ 0 0 i a hx
        obtain ⟨hb1, _, _⟩ := timeChunksAux_getElem c o D _ 0 0 (i + 1) b hy
        constructor
        · rw [hb1, ha1]; push_cast; ring
        · intro hclamp
          rw [ha2, min_eq_left hclamp, hb1, ha1]
          push_cast; ring

/-- C4 counterexample: with target 30 and overlap 10 the Cut-&-Merge builder
applied to the speech intervals 0-25, 30-55, 60-85 of a 100-second file
produces the chunks 0-35, 20-65, 50-85; the first two chunks are adjacent,
neither is the final chunk, and their intervals overlap by 35 - 20 = 15, not
by the overlap margin 10, refuting the exact-overlap claim for Cut-&-Merge. -/
theorem C4_counterexample :
    create_vad_chunks [(0, 25), (30, 55), (60, 85)] 100 30 10 =
      [⟨0, 35, 0⟩, ⟨20, 65, 1⟩, ⟨50, 85, 2⟩] ∧
    ¬ ((35 : ℚ) - 20 = 10) := by
  constructor
  · norm_num [create_vad_chunks, cutMergeLoop]
  · norm_num

/-- The computed fuel bound dominates the loop: from position 0 the cursor
reaches the duration within timeFuel iterations when overlap < chunk_duration
and the duration is nonnegative. -/
theorem timeFuel_sufficient (c o D : ℚ) (hoc : o < c) (hD : 0 ≤ D) :
    D ≤ (timeFuel c o D : ℚ) * (c - o) := by
  have hs : 0 < c - o := by linarith
  have hq : 0 ≤ D / (c - o) := div_nonneg hD (le_of_lt hs)
  have hceil : (0 : ℤ) ≤ ⌈D / (c - o)⌉ := Int.ceil_nonneg hq
  have h1 : D / (c - o) ≤ ((⌈D / (c - o)⌉).toNat : ℚ) := by
    have h2 := Int.le_ceil (D / (c - o))
    have h3 : ((⌈D / (c - o)⌉ : ℤ) : ℚ) = ((⌈D / (c - o)⌉).toNat : ℚ) := by
      exact_mod_cast (Int.toNat_of_nonneg hceil).symm
    linarith [h2, h3.le, h3.ge]
  have h4 : D / (c - o) * (c - o) ≤ ((⌈D / (c - o)⌉).toNat : ℚ) * (c - o) :=
    mul_le_mul_of_nonneg_right h1 (le_of_lt hs)
  have h5 : D / (c - o) * (c - o) = D := div_mul_cancel₀ D (ne_of_gt hs)
  have h6 : timeFuel c o D = (⌈D / (c - o)⌉).toNat + 1 := by
    unfold timeFuel
    rw [if_neg (by linarith)]
  rw [h6]
  push_cast
  nlinarith

/-- Coverage of the fixed-window loop: with enough fuel, every point between
the current position and the duration lies inside one of the produced
chunks. -/
theorem timeChunksAux_covers (c o D : ℚ) (ho : 0 ≤ o) :
    ∀ (fuel : ℕ) (pos : ℚ) (cid : ℕ) (x : ℚ),
      pos ≤ x → x ≤ D → pos < D → D ≤ pos + fuel * (c - o) →
      ∃ ch ∈ timeChunksAux c o D fuel pos cid, ch.start ≤ x ∧ x ≤ ch.stop := by
  intro fuel
  induction fuel with
  | zero =>
    intro pos cid x hpx hxD hpD hfuel
    push_cast at hfuel
    linarith
  | succ fuel ih =>
    intro pos cid x hpx hxD hpD hfuel
    simp only [timeChunksAux, if_pos hpD]
    by_cases hxc : x ≤ pos + c
    · refine ⟨⟨pos, min (pos + c) D, cid⟩, List.mem_cons_self _ _, hpx, ?_⟩
      exact le_min hxc hxD
    · push_neg at hxc
      have hfuel' : D ≤ (pos + (c - o)) + fuel * (c - o) := by
        push_cast at hfuel ⊢
        linarith
      obtain ⟨ch, hmem, h1, h2⟩ := ih (pos + (c - o)) (cid + 1) x
        (by linarith) hxD (by linarith) hfuel'
      exact ⟨ch, List.mem_cons_of_mem _ hmem, h1, h2⟩

/-- C2 (amended): the Fixed-Window builder covers the whole file with no gap
at all (tolerance 0): for 0 <= overlap < chunk_duration and positive
duration, every point of the file lies inside some chunk.  The same coverage
claim for the Cut-&-Merge and Silence-Gap builders is refuted by
C2_counterexample. -/
theorem C2_fixed_window_covers (c o D : ℚ) (ho : 0 ≤ o) (hoc : o < c)
    (hD : 0 < D) :
    coversWithin (create_time_based_chunks c o D) D 0 := by
  intro x hx0 hxD
  unfold create_time_based_chunks
  have hfuel : D ≤ 0 + (timeFuel c o D : ℚ) * (c - o) := by
    have := timeFuel_sufficient c o D hoc (le_of_lt hD)
    linarith
  obtain ⟨ch, hmem, h1, h2⟩ :=
    timeChunksAux_covers c o D ho (timeFuel c o D) 0 0 x hx0 hxD hD hfuel
  exact ⟨ch, hmem, by linarith, by linarith⟩

theorem C2_witness : coversWithin (create_time_based_chunks 30 10 45) 45 0 :=
  C2_fixed_window_covers 30 10 45 (by decide) (by decide) (by decide)

/-- C2 counterexample: the Cut-&-Merge builder on the single speech interval
2-5 of a 100-second file (target 30, overlap 10) returns the single chunk
0-5, leaving the point 50 more than 40 seconds away from every chunk; and
the Silence-Gap builder on the silence 10-60 of a 100-second file (maximum
chunk 60) returns the chunks 0-10 and 60-100, leaving the point 35 more
than 20 seconds away from every chunk.  Both refute coverage of the file
within any plausible tolerance. -/
theorem C2_counterexample :
    create_vad_chunks [(2, 5)] 100 30 10 = [⟨0, 5, 0⟩] ∧
    ¬ coversWithin [⟨0, 5, 0⟩] 100 40 ∧
    create_silence_based_chunks [(10, 60)] 100 60 30 10 =
      [⟨0, 10, 0⟩, ⟨60, 100, 1⟩] ∧
    ¬ coversWithin [⟨0, 10, 0⟩, ⟨60, 100, 1⟩] 100 20 := by
  refine ⟨?_, ?_, ?_, ?_⟩
  · norm_num [create_vad_chunks, cutMergeLoop]
  · intro h
    obtain ⟨ch, hc, h1, h2⟩ := h 50 (by norm_num) (by norm_num)
    simp only [List.mem_singleton] at hc
    subst hc
    norm_num at h2
  · norm_num [create_silence_based_chunks, silenceOuter]
  · intro h
    obtain ⟨ch, hc, h1, h2⟩ := h 35 (by norm_num) (by norm_num)
    rcases List.mem_pair.mp hc with rfl | rfl
    · norm_num at h2
    · norm_num at h1

/-- The accumulation loop of transcribe_large is the concatenation of the
per-chunk segment lists after the initial accumulator. -/
theorem transcribeFold_eq_flatten (engine : RecEngine) (lang : Option String) :
    ∀ (chunks : List AudioSegment) (init : List RawSeg),
      transcribeFold engine lang chunks init =
        init ++ (chunks.map fun c =>
          (transcribe_audio_segment engine lang c).segments).flatten := by
  intro chunks
  induction chunks with
  | nil => intro init; simp [transcribeFold]
  | cons c rest ih =>
    intro init
    simp only [transcribeFold, List.foldl_cons] at *
    rw [ih (init ++ (transcribe_audio_segment engine lang c).segments)]
    simp [List.append_assoc]

/-- Removing a list element whose image under f is empty does not change the
flattened map. -/
theorem flatten_map_eraseIdx {α β : Type} (f : α → List β) :
    ∀ (l : List α) (j : ℕ) (a : α), l[j]? = some a → f a = [] →
      (l.map f).flatten = ((l.eraseIdx j).map f).flatten := by
  intro l
  induction l with
  | nil =>
    intro j a h _
    simp at h
  | cons x rest ih =>
    intro j a h hfa
    cases j with
    | zero =>
      simp only [List.getElem?_cons_zero, Option.some.injEq] at h
      subst h
      simp [hfa]
    | succ j =>
      simp only [List.getElem?_cons_succ] at h
      simp only [List.eraseIdx_cons_succ, List.map_cons, List.flatten_cons]
      rw [ih j a h hfa]

/-- C6: when the recognition call throws on one chunk, that chunk's wrapper
result still carries the chunk id, start and end, has an empty segments list
and records the error (no exception propagates, the wrapper is total), and
the final concatenated segment list of the job is exactly what it would be
with the failed chunk removed: the job continues over the remaining chunks
and the failed chunk's content is simply omitted. -/
theorem C6_chunk_failure_isolated (engine : RecEngine) (l : String)
    (chunks : List AudioSegment) (j : ℕ) (ch : AudioSegment) (msg : String)
    (hj : chunks[j]? = some ch) (he : engine ch (some l) = .error msg) :
    (transcribe_audio_segment engine (some l) ch).segments = [] ∧
    (transcribe_audio_segment engine (some l) ch).segment_id = ch.segment_id ∧
    (transcribe_audio_segment engine (some l) ch).start = ch.start ∧
    (transcribe_audio_segment engine (some l) ch).stop = ch.stop ∧
    (transcribe_audio_segment engine (some l) ch).error = some msg ∧
    transcribe_large_all_segments engine (some l) chunks =
      transcribe_large_all_segments engine (some l) (chunks.eraseIdx j) := by
  refine ⟨by simp [transcribe_audio_segment, he], by simp [transcribe_audio_segment, he],
    by simp [transcribe_audio_segment, he], by simp [transcribe_audio_segment, he],
    by simp [transcribe_audio_segment, he], ?_⟩
  have h1 : ∀ cs, transcribe_large_all_segments engine (some l) cs =
      transcribeFold engine (some l) cs [] := by
    intro cs
    cases cs <;> rfl
  rw [h1, h1, transcribeFold_eq_flatten, transcribeFold_eq_flatten]
  simp only [List.nil_append]
  exact flatten_map_eraseIdx _ chunks j ch hj (by simp [transcribe_audio_segment, he])

/-- A concrete recognition engine that throws on the chunk with id 1 and
succeeds elsewhere. -/
def engineC6 : RecEngine := fun seg _ =>
  if seg.segment_id = 1 then .error "cuda out of memory"
  else .ok ([⟨0, 1, "ok"⟩], some "en")

/-- The chunks of the C6 witness job. -/
def chunksC6 : List AudioSegment := [⟨0, 30, 0⟩, ⟨20, 50, 1⟩, ⟨40, 60, 2⟩]

theorem C6_witness :
    (transcribe_audio_segment engineC6 (some "en") ⟨20, 50, 1⟩).segments = [] ∧
    (transcribe_audio_segment engineC6 (some "en") ⟨20, 50, 1⟩).segment_id = 1 ∧
    (transcribe_audio_segment engineC6 (some "en") ⟨20, 50, 1⟩).start = 20 ∧
    (transcribe_audio_segment engineC6 (some "en") ⟨20, 50, 1⟩).stop = 50 ∧
    (transcribe_audio_segment engineC6 (some "en") ⟨20, 50, 1⟩).error =
      some "cuda out of memory" ∧
    transcribe_large_all_segments engineC6 (some "en") chunksC6 =
      transcribe_large_all_segments engineC6 (some "en") (chunksC6.eraseIdx 1) :=
  C6_chunk_failure_isolated engineC6 "en" chunksC6 1 ⟨20, 50, 1⟩
    "cuda out of memory" (by rfl) (by rfl)

/-- C1 (amended): the reassembly performed by transcribe_large is the plain
concatenation of the per-chunk (offset) segment lists in chunk order — with
a pinned language over all chunks, and in the auto-detect path with the
first chunk transcribed during detection and the detected language pinned
for the rest.  No deduplication pass and no reordering exists, so the final
list need not be monotone in start and may retain near-duplicates from the
chunk overlap regions (see C1_counterexample). -/
theorem C1_reassembly_is_concatenation (engine : RecEngine) :
    (∀ (l : String) (chunks : List AudioSegment),
      transcribe_large_all_segments engine (some l) chunks =
        (chunks.map fun c =>
          (transcribe_audio_segment engine (some l) c).segments).flatten) ∧
    (∀ (c0 : AudioSegment) (rest : List AudioSegment),
      transcribe_large_all_segments engine none (c0 :: rest) =
        (transcribe_audio_segment engine none c0).segments ++
          (rest.map fun c =>
            (transcribe_audio_segment engine
              (some ((transcribe_audio_segment engine none c0).language.getD "en"))
              c).segments).flatten) := by
  constructor
  · intro l chunks
    have h1 : transcribe_large_all_segments engine (some l) chunks =
        transcribeFold engine (some l) chunks [] := by
      cases chunks <;> rfl
    rw [h1, transcribeFold_eq_flatten]
    simp
  · intro c0 rest
    show transcribeFold engine _ rest (transcribe_audio_segment engine none c0).segments = _
    rw [transcribeFold_eq_flatten]

/-- A concrete recognition engine whose outputs on two overlapping chunks
repeat a segment of the overlap region (as overlapping chunks do in
practice) and end with a segment that starts inside the overlap. -/
def engineC1 : RecEngine := fun seg _ =>
  if seg.segment_id = 0 then .ok ([⟨0, 5, "hello"⟩, ⟨25, 34, "world"⟩], some "en")
  else .ok ([⟨5, 14, "world"⟩, ⟨2, 7, "again"⟩], some "en")

/-- C1 counterexample: a two-chunk job (chunks 0-35 and 20-55) whose engine
outputs overlap produces the concatenated list hello 0-5, world 25-34,
world 25-34, again 22-27: the starts 25, 22 are decreasing and the two
world entries are near-duplicates (same text, intervals overlapping by 9 > 1),
yet they are handed on undeduplicated — refuting the claimed invariant. -/
theorem C1_counterexample :
    transcribe_large_all_segments engineC1 (some "en") [⟨0, 35, 0⟩, ⟨20, 55, 1⟩] =
      [⟨0, 5, "hello"⟩, ⟨25, 34, "world"⟩, ⟨25, 34, "world"⟩, ⟨22, 27, "again"⟩] ∧
    nearDup 1 ⟨25, 34, "world"⟩ ⟨25, 34, "world"⟩ ∧
    ¬ reassemblyInvariant 1
      [⟨0, 5, "hello"⟩, ⟨25, 34, "world"⟩, ⟨25, 34, "world"⟩, ⟨22, 27, "again"⟩] := by
  refine ⟨?_, ⟨rfl, by norm_num⟩, ?_⟩
  · show transcribeFold engineC1 (some "en") _ [] = _
    simp only [transcribeFold, List.foldl_cons, List.foldl_nil,
      transcribe_audio_segment, engineC1]
    norm_num
  · rintro ⟨hchain, -⟩
    simp only [List.chain'_cons, List.chain'_nil] at hchain
    norm_num at hchain

/-- The per-chunk progress value is monotone in the chunk index. -/
theorem segment_progress_mono (n : ℕ) {a b : ℕ} (hab : a ≤ b) :
    segment_progress n a ≤ segment_progress n b := by
  unfold segment_progress
  have h : (a : ℚ) / n * 60 ≤ (b : ℚ) / n * 60 := by
    have h1 : (a : ℚ) / n ≤ (b : ℚ) / n :=
      div_le_div_of_nonneg_right (by exact_mod_cast hab) (by positivity)
    linarith
  have := Int.floor_le_floor h
  omega

/-- C8 (amended): during the transcription phase the loop issues exactly one
notification per iterated chunk — i.e. n - k notifications where k is the
loop start index (1 when language auto-detection consumed the first chunk,
which then triggers none; 0 otherwise), each sent before its chunk with
value 20 + floor of 60 i / n where i chunks are done, the values lying in
the band from 20 inclusive to 80 exclusive and forming a monotonically
non-decreasing sequence. -/
theorem C8_progress_values (n k : ℕ) :
    (transcription_progress_values n k).length = n - k ∧
    (transcription_progress_values n k).Pairwise (· ≤ ·) ∧
    ∀ p ∈ transcription_progress_values n k, 20 ≤ p ∧ p < 80 := by
  refine ⟨by simp [transcription_progress_values], ?_, ?_⟩
  · unfold transcription_progress_values
    refine List.Pairwise.map _ ?_ ((List.pairwise_lt_range n).drop)
    intro a b hab
    exact segment_progress_mono n (le_of_lt hab)
  · intro p hp
    unfold transcription_progress_values at hp
    obtain ⟨i, hi, rfl⟩ := List.mem_map.mp hp
    have hin : i < n := List.mem_range.mp (List.mem_of_mem_drop hi)
    have hn' : (0 : ℚ) < n := by exact_mod_cast lt_of_le_of_lt (Nat.zero_le i) hin
    constructor
    · have h0 : (0 : ℚ) ≤ (i : ℚ) / n * 60 := by positivity
      have := Int.floor_nonneg.mpr h0
      unfold segment_progress
      omega
    · have h1 : (i : ℚ) / n < 1 := by
        rw [div_lt_one hn']
        exact_mod_cast hin
      have h2 : (i : ℚ) / n * 60 < 60 := by linarith
      have := Int.floor_lt.mpr (by exact_mod_cast h2 : (i : ℚ) / n * 60 < (60 : ℤ))
      unfold segment_progress
      omega

/-- C8 counterexample: a 5-chunk job with no pinned language consumes chunk
0 during language detection with no notification, so only 4 notifications
are issued (values 32, 44, 56, 68, sent before chunks 1 to 4), refuting the
claim that every chunk, including the first, triggers exactly one
notification. -/
theorem C8_counterexample :
    loopStartIdx none 5 = 1 ∧
    transcription_progress_values 5 (loopStartIdx none 5) = [32, 44, 56, 68] ∧
    (transcription_progress_values 5 (loopStartIdx none 5)).length ≠ 5 := by
  refine ⟨by decide, ?_, by decide⟩
  have h : (List.range 5).drop (loopStartIdx none 5) = [1, 2, 3, 4] := by decide
  unfold transcription_progress_values
  rw [h]
  simp only [List.map_cons, List.map_nil, segment_progress]
  norm_num

/-- The four cue lines of each rendered entry, indices counting up. -/
def cueLines : ℕ → List (ℚ × ℚ × String) → List String
  | _, [] => []
  | c, (s, e, t) :: rest =>
      [toString c, format_timestamp_srt s ++ " --> " ++ format_timestamp_srt e,
        t, ""] ++ cueLines (c + 1) rest

theorem cueLines_ne_nil (c : ℕ) (p : ℚ × ℚ × String) (l : List (ℚ × ℚ × String)) :
    cueLines c (p :: l) ≠ [] := by
  rcases p with ⟨s, e, t⟩
  simp [cueLines]

theorem cueLines_append (l1 : List (ℚ × ℚ × String)) :
    ∀ (c : ℕ) (l2 : List (ℚ × ℚ × String)),
      cueLines c (l1 ++ l2) = cueLines c l1 ++ cueLines (c + l1.length) l2 := by
  induction l1 with
  | nil => intro c l2; simp [cueLines]
  | cons p rest ih =>
    intro c l2
    rcases p with ⟨s, e, t⟩
    have hc : c + 1 + rest.length = c + (rest.length + 1) := by omega
    simp only [List.cons_append, cueLines, List.length_cons, List.append_assoc,
      List.nil_append]
    rw [show rest.append l2 = rest ++ l2 from rfl, ih (c + 1) l2, hc]

theorem srtWordLines_eq (ws : List WordEntry) :
    ∀ c : ℕ, srtWordLines c ws =
      (cueLines c (wordEntriesOf ws), c + (wordEntriesOf ws).length) := by
  induction ws with
  | nil => intro c; simp [srtWordLines, wordEntriesOf, cueLines]
  | cons w rest ih =>
    intro c
    cases hstart : w.start with
    | none => simpa [srtWordLines, wordEntriesOf, hstart] using ih c
    | some s =>
      cases hstop : w.stop with
      | none => simpa [srtWordLines, wordEntriesOf, hstart, hstop] using ih c
      | some e =>
        by_cases ht : pyStrip w.word = ""
        · simpa [srtWordLines, wordEntriesOf, hstart, hstop, ht] using ih c
        · have hc : c + 1 + (wordEntriesOf rest).length =
              c + ((wordEntriesOf rest).length + 1) := by omega
          simp only [srtWordLines, wordEntriesOf, hstart, hstop, ht, if_neg,
            ite_false, ih (c + 1), cueLines, List.length_cons, hc,
            List.cons_append, List.nil_append]

theorem srtSegWordLines_eq (segments : List SegEntry) :
    ∀ c : ℕ, srtSegWordLines c segments =
      (cueLines c (allWordEntries segments),
        c + (allWordEntries segments).length) := by
  induction segments with
  | nil => intro c; simp [srtSegWordLines, allWordEntries, cueLines]
  | cons seg rest ih =>
    intro c
    have hall : allWordEntries (seg :: rest) =
        wordEntriesOf seg.words ++ allWordEntries rest := by
      simp [allWordEntries]
    have hc : c + (wordEntriesOf seg.words).length + (allWordEntries rest).length =
        c + ((wordEntriesOf seg.words).length + (allWordEntries rest).length) := by
      omega
    simp only [srtSegWordLines, srtWordLines_eq seg.words c, ih, hall,
      cueLines_append, List.length_append, hc]

theorem srtSegLines_eq (segments : List SegEntry) :
    ∀ c : ℕ, srtSegLines c segments =
      (cueLines c (segEntriesOf segments), c + (segEntriesOf segments).length) := by
  induction segments with
  | nil => intro c; simp [srtSegLines, segEntriesOf, cueLines]
  | cons seg rest ih =>
    intro c
    cases hstart : seg.start with
    | none => simpa [srtSegLines, segEntriesOf, hstart] using ih c
    | some s =>
      cases hstop : seg.stop with
      | none => simpa [srtSegLines, segEntriesOf, hstart, hstop] using ih c
      | some e =>
        by_cases ht : pyStrip seg.text = ""
        · simpa [srtSegLines, segEntriesOf, hstart, hstop, ht] using ih c
        · have hc : c + 1 + (segEntriesOf rest).length =
              c + ((segEntriesOf rest).length + 1) := by omega
          simp only [srtSegLines, segEntriesOf, hstart, hstop, ht, if_neg,
            ite_false, ih (c + 1), cueLines, List.length_cons, hc,
            List.cons_append, List.nil_append]

theorem joinLines_four_append (a b t : String) (L : List String) (hL : L ≠ []) :
    joinLines ([a, b, t, ""] ++ L) =
      a ++ "\n" ++ b ++ "\n" ++ t ++ "\n\n" ++ joinLines L := by
  cases L with
  | nil => exact absurd rfl hL
  | cons l L' =>
    show joinLines (a :: b :: t :: "" :: l :: L') = _
    simp only [joinLines]
    apply String.ext
    have h2 : ("\n" : String).data = ['\n'] := rfl
    have h3 : ("\n\n" : String).data = ['\n', '\n'] := rfl
    simp [String.data_append, h2, h3]

theorem joinLines_cueConcat (entries : List (ℚ × ℚ × String)) :
    ∀ c : ℕ, entries ≠ [] →
      joinLines (cueLines c entries) ++ "\n" = cueConcat c entries := by
  induction entries with
  | nil => intro c h; exact absurd rfl h
  | cons p rest ih =>
    intro c _
    rcases p with ⟨s, e, t⟩
    cases rest with
    | nil =>
      show joinLines [toString c, _, t, ""] ++ "\n" = _
      simp only [joinLines, cueConcat, cueBlock, String.append_empty]
      apply String.ext
      have h2 : ("\n" : String).data = ['\n'] := rfl
      have h3 : ("\n\n" : String).data = ['\n', '\n'] := rfl
      have h4 : ("" : String).data = [] := rfl
      simp [String.data_append, h2, h3, h4]
    | cons q rest' =>
      have hq := cueLines_ne_nil (c + 1) q rest'
      show joinLines ([toString c, _, t, ""] ++ cueLines (c + 1) (q :: rest')) ++ "\n" = _
      rw [joinLines_four_append _ _ _ _ hq]
      have hih := ih (c + 1) (by simp)
      rw [show cueConcat c ((s, e, t) :: q :: rest') =
        cueBlock c s e t ++ cueConcat (c + 1) (q :: rest') from rfl]
      rw [← hih]
      simp only [cueBlock]
      apply String.ext
      have h2 : ("\n" : String).data = ['\n'] := rfl
      have h3 : ("\n\n" : String).data = ['\n', '\n'] := rfl
      simp [String.data_append, h2, h3]

theorem qmod_nonneg (a b : ℚ) (hb : 0 < b) : 0 ≤ qmod a b := by
  unfold qmod
  have h := Int.floor_le (a / b)
  have h2 : b * ((⌊a / b⌋ : ℤ) : ℚ) ≤ b * (a / b) :=
    mul_le_mul_of_nonneg_left h (le_of_lt hb)
  have h3 : b * (a / b) = a := by field_simp
  linarith

theorem qmod_lt (a b : ℚ) (hb : 0 < b) : qmod a b < b := by
  unfold qmod
  have h := Int.lt_floor_add_one (a / b)
  have h2 : b * (a / b) < b * (((⌊a / b⌋ : ℤ) : ℚ) + 1) :=
    mul_lt_mul_of_pos_left h hb
  have h3 : b * (a / b) = a := by field_simp
  nlinarith

/-- C7 (amended): for every segment list, both renderers produce exactly the
concatenation of one cue block index newline start arrow end newline text
newline newline per rendered entry (word-level entries for the word
renderer, segment-level for the segment renderer, skipping entries with
empty stripped text or a missing timestamp), indices counting up from 1 —
except that the newline join leaves no blank line after the very last cue:
the output plus one final newline equals the exact concatenation (and the
empty rendering is the empty string).  The timestamp fields are in range for
the zero-padded HH:MM:SS,mmm rendering: minutes and seconds below 60 and
milliseconds below 1000. -/
theorem C7_srt_rendering_structure (segments : List SegEntry) :
    (∀ seconds : ℚ,
      (⌊qmod seconds 3600 / 60⌋).toNat < 60 ∧ (⌊qmod seconds 60⌋).toNat < 60 ∧
        (⌊qmod seconds 1 * 1000⌋).toNat < 1000) ∧
    (allWordEntries segments = [] → generate_srt_from_segments segments = "") ∧
    (allWordEntries segments ≠ [] →
      generate_srt_from_segments segments ++ "\n" =
        cueConcat 1 (allWordEntries segments)) ∧
    (segEntriesOf segments = [] → generate_segment_srt segments = "") ∧
    (segEntriesOf segments ≠ [] →
      generate_segment_srt segments ++ "\n" = cueConcat 1 (segEntriesOf segments)) := by
  refine ⟨?_, ?_, ?_, ?_, ?_⟩
  · intro q
    refine ⟨?_, ?_, ?_⟩
    · have h1 : qmod q 3600 < 3600 := qmod_lt q 3600 (by norm_num)
      have h2 : qmod q 3600 / 60 < ((60 : ℤ) : ℚ) := by
        rw [div_lt_iff₀ (by norm_num : (0 : ℚ) < 60)]
        push_cast
        linarith
      have := Int.floor_lt.mpr h2
      omega
    · have h1 : qmod q 60 < 60 := qmod_lt q 60 (by norm_num)
      have := Int.floor_lt.mpr (by push_cast; linarith : qmod q 60 < ((60 : ℤ) : ℚ))
      omega
    · have h1 : qmod q 1 < 1 := qmod_lt q 1 (by norm_num)
      have h2 : qmod q 1 * 1000 < ((1000 : ℤ) : ℚ) := by push_cast; linarith
      have := Int.floor_lt.mpr h2
      omega
  · intro h
    unfold generate_srt_from_segments
    rw [srtSegWordLines_eq segments 1]
    simp [h, cueLines, joinLines]
  · intro h
    unfold generate_srt_from_segments
    rw [srtSegWordLines_eq segments 1]
    exact joinLines_cueConcat _ 1 h
  · intro h
    unfold generate_segment_srt
    rw [srtSegLines_eq segments 1]
    simp [h, cueLines, joinLines]
  · intro h
    unfold generate_segment_srt
    rw [srtSegLines_eq segments 1]
    exact joinLines_cueConcat _ 1 h

/-- A concrete segment list with two renderable words and renderable text. -/
def segsC7 : List SegEntry :=
  [{ text := "Hello there", start := some 1, stop := some 3,
     words := [⟨" Hello ", some 1, some 2⟩, ⟨"there", some 2, some 3⟩] }]

theorem C7_witness :
    generate_srt_from_segments segsC7 ++ "\n" = cueConcat 1 (allWordEntries segsC7) ∧
    generate_segment_srt segsC7 ++ "\n" = cueConcat 1 (segEntriesOf segsC7) :=
  ⟨(C7_srt_rendering_structure segsC7).2.2.1 (by decide),
    (C7_srt_rendering_structure segsC7).2.2.2.2 (by decide)⟩

/-- C7 counterexample: on the one-segment list with text hi and timestamps
1 and 2, the rendered subtitle text is not bit-exact the concatenation of
the cue blocks: the newline join drops the trailing newline of the final
blank line, so the output is one character shorter than the claimed
concatenation. -/
theorem C7_counterexample :
    generate_segment_srt [{ text := "hi", start := some 1, stop := some 2, words := [] }] ≠
      cueConcat 1 (segEntriesOf
        [{ text := "hi", start := some 1, stop := some 2, words := [] }]) := by
  intro h
  have key : generate_segment_srt
      [{ text := "hi", start := some 1, stop := some 2, words := [] }] ++ "\n" =
      cueConcat 1 (segEntriesOf
        [{ text := "hi", start := some 1, stop := some 2, words := [] }]) := by
    unfold generate_segment_srt
    rw [srtSegLines_eq _ 1]
    exact joinLines_cueConcat _ 1 (by decide)
  rw [h] at key
  have hlen := congrArg (fun s : String => s.data.length) key
  simp [String.data_append] at hlen
